import Mathlib

/-!
Shallow embedding of the mbox message-boundary scanner (`MboxParserStream`
from `src/MboxStream.ts`).  Bytes are modelled as `Nat`, buffers as
`List Nat`, emitted boundary offsets as `Int` (JS numbers may go through
negative intermediate values in the offset arithmetic), and the
`MboxValidationError` thrown in strict mode as `Except Unit`.
-/

namespace Mbox

/-- Byte values of the delimiter `"\nFrom "` (static field `DELIMITER`). -/
def DELIMITER : List Nat := [10, 70, 114, 111, 109, 32]

/-- Byte values of `"From "` (static field `DELIMITER_START`). -/
def DELIMITER_START : List Nat := [70, 114, 111, 109, 32]

/-- The mutable fields of `MboxParserStream`:  `absoluteOffset`, `tail`
(the carry buffer), `isFirstChunk`, and the construction-time `strict`. -/
structure ScannerState where
  absoluteOffset : Nat
  tail : List Nat
  isFirstChunk : Bool
  strict : Bool
deriving Repr, DecidableEq

/-- The state of a freshly constructed `MboxParserStream({strict})`. -/
def initState (strict : Bool) : ScannerState :=
  { absoluteOffset := 0, tail := [], isFirstChunk := true, strict := strict }

/-- `startsWithFromLine`: a buffer starts with `"From "`. -/
def startsWithFromLine (buffer : List Nat) : Bool :=
  if buffer.length < DELIMITER_START.length then false
  else buffer.take DELIMITER_START.length == DELIMITER_START

/-- `buf` contains the pattern `pat` starting at index `i`
(the test `buf.indexOf(pat, ...) === i` succeeds at `i`). -/
def matchAt (buf pat : List Nat) (i : Nat) : Bool :=
  (buf.drop i).take pat.length == pat

/-- The `while`-loop of `_transform`: repeatedly `indexOf` the delimiter,
resuming at (match position + 1); this visits the candidate positions
`i, i+1, ...` (`fuel` many) and collects every position where the pattern
occurs, in increasing order. -/
def scanMatches (buf pat : List Nat) : Nat → Nat → List Nat
  | _, 0 => []
  | i, fuel + 1 =>
    if matchAt buf pat i then i :: scanMatches buf pat (i + 1) fuel
    else scanMatches buf pat (i + 1) fuel

/-- The first-chunk handling at the top of `_transform`: decides (or defers)
whether the stream starts with `"From "`.  Returns the offsets pushed by this
block (`[0]` or `[]`) and the new value of `isFirstChunk`; `.error` is the
`MboxValidationError` handed to the callback in strict mode. -/
def firstChunkCheck (isFirst strict : Bool) (searchBuffer : List Nat) :
    Except Unit (List Int × Bool) :=
  if isFirst then
    if DELIMITER_START.length ≤ searchBuffer.length then
      if startsWithFromLine searchBuffer then .ok ([0], false)
      else if strict then .error () else .ok ([], false)
    else
      if DELIMITER_START.take searchBuffer.length == searchBuffer then .ok ([], true)
      else if strict then .error () else .ok ([], false)
  else .ok ([], false)

/-- One call of `MboxParserStream._transform(chunk)`: returns the pushed
boundary offsets and the updated state, or `.error` when the strict-mode
`MboxValidationError` is passed to the callback (in which case the stream
is destroyed and no state survives). -/
def transform (s : ScannerState) (chunk : List Nat) :
    Except Unit (List Int × ScannerState) :=
  let searchBuffer := s.tail ++ chunk
  match firstChunkCheck s.isFirstChunk s.strict searchBuffer with
  | .error e => .error e
  | .ok (firstOut, stillFirst) =>
    let found := scanMatches searchBuffer DELIMITER 0 searchBuffer.length
    let boundaries := found.map (fun m : Nat =>
      (s.absoluteOffset : Int) + ((m : Int) - (s.tail.length : Int)) + 1)
    let newTail :=
      if stillFirst then searchBuffer.take DELIMITER_START.length
      else
        searchBuffer.drop
          (searchBuffer.length - min (DELIMITER.length - 1) searchBuffer.length)
    .ok (firstOut ++ boundaries,
      { absoluteOffset := s.absoluteOffset + chunk.length, tail := newTail,
        isFirstChunk := stillFirst, strict := s.strict })

/-- `MboxParserStream._flush`: no final processing, the callback always
succeeds. -/
def flushScanner (_s : ScannerState) : Except Unit Unit := .ok ()

/-- `MboxParserStream.reset()`: reinitializes `absoluteOffset`, `tail` and
`isFirstChunk`; `strict` is untouched. -/
def resetScanner (s : ScannerState) : ScannerState :=
  { s with absoluteOffset := 0, tail := [], isFirstChunk := true }

/-- Feed a sequence of chunks: the concatenation of all pushed boundary
offsets, together with the final state (`none` once the strict-mode error
destroyed the stream; later chunks are then never delivered). -/
def runChunks (s : ScannerState) : List (List Nat) → List Int × Option ScannerState
  | [] => ([], some s)
  | c :: cs =>
    match transform s c with
    | .error _ => ([], none)
    | .ok (out, s1) =>
      let r := runChunks s1 cs
      (out ++ r.1, r.2)

/-- Scan a whole stream, delivered as the given list of chunks, on a fresh
scanner with the given strict mode. -/
def scanMbox (strict : Bool) (chunks : List (List Nat)) :
    List Int × Option ScannerState :=
  runChunks (initState strict) chunks

/-- Feeding the whole stream as one single chunk. -/
def scanWhole (s : ScannerState) (stream : List Nat) :
    List Int × Option ScannerState :=
  match transform s stream with
  | .error _ => ([], none)
  | .ok (out, s1) => (out, some s1)

/-- The condition under which the code's first-chunk check resolves to
"does not start with From": at least 5 bytes are present and they fail
`startsWithFromLine`, or fewer than 5 bytes are present and they are not a
prefix of `"From "`. -/
def evidentMismatch (stream : List Nat) : Bool :=
  if DELIMITER_START.length ≤ stream.length then !(startsWithFromLine stream)
  else !(DELIMITER_START.take stream.length == stream)

/-- Byte list of a string literal (ASCII test inputs). -/
def strBytes (s : String) : List Nat := s.data.map Char.toNat

/-- The worked example input of the spec. -/
def exampleInput : List Nat :=
  strBytes "From a@x Mon Jan 1\nSubj: 1\n\nBody 1\nFrom b@x Mon Jan 2\nSubj: 2\n"

/-- All positions where the delimiter occurs in a buffer, in increasing
order (the denotation of the indexOf loop). -/
def matchPositions (buf : List Nat) : List Nat :=
  (List.range buf.length).filter (fun i => matchAt buf DELIMITER i)

/-- The state invariant maintained by the scanner: while the first-chunk
decision is pending, the carry holds all (fewer than 5) bytes seen so far and
they form a prefix of `"From "`; afterwards the carry is at most 5 bytes. -/
def Inv (s : ScannerState) : Prop :=
  (s.isFirstChunk = true → s.tail.length < DELIMITER_START.length ∧
    s.tail = DELIMITER_START.take s.tail.length) ∧
  (s.isFirstChunk = false → s.tail.length ≤ DELIMITER.length - 1)

theorem delim_len : DELIMITER.length = 6 := rfl

theorem delimStart_len : DELIMITER_START.length = 5 := rfl

/-- A match needs the full pattern inside the buffer. -/
theorem matchAt_le {buf : List Nat} {i : Nat} (h : matchAt buf DELIMITER i = true) :
    i + DELIMITER.length ≤ buf.length := by
  simp only [matchAt, beq_iff_eq] at h
  have hl := congrArg List.length h
  rw [List.length_take, List.length_drop] at hl
  rw [delim_len] at hl ⊢
  omega

/-- A match inside the left part of an append is a match of the left part. -/
theorem matchAt_append_left {u : List Nat} (v : List Nat) {pat : List Nat} {i : Nat}
    (h : i + pat.length ≤ u.length) :
    matchAt (u ++ v) pat i = matchAt u pat i := by
  simp only [matchAt]
  rw [List.drop_append_eq_append_drop, List.take_append_eq_append_take,
    List.length_drop]
  have h2 : pat.length - (u.length - i) = 0 := by omega
  rw [h2, List.take_zero, List.append_nil]

/-- Dropping a prefix of the left part shifts match positions. -/
theorem matchAt_append_drop {u : List Nat} (v : List Nat) {d : Nat}
    (hd : d ≤ u.length) (pat : List Nat) (i : Nat) :
    matchAt (u ++ v) pat (d + i) = matchAt (u.drop d ++ v) pat i := by
  simp only [matchAt]
  have hdrop : (u ++ v).drop (d + i) = (u.drop d ++ v).drop i := by
    rw [← List.drop_drop]
    congr 1
    rw [List.drop_append_eq_append_drop]
    have h0 : d - u.length = 0 := by omega
    rw [h0, List.drop_zero]
  rw [hdrop]

/-- The scan loop collects exactly the positions in its fuel window where
the pattern occurs. -/
theorem scanMatches_eq_filter (buf pat : List Nat) (fuel : Nat) : ∀ i : Nat,
    scanMatches buf pat i fuel =
      (List.range' i fuel).filter (fun j => matchAt buf pat j) := by
  induction fuel with
  | zero => intro i; simp [scanMatches]
  | succ n ih =>
    intro i
    rw [List.range'_succ]
    simp only [scanMatches, List.filter_cons]
    cases h : matchAt buf pat i <;> simp [h, ih]

theorem scanMatches_eq_matchPositions (buf : List Nat) :
    scanMatches buf DELIMITER 0 buf.length = matchPositions buf := by
  rw [scanMatches_eq_filter, matchPositions, List.range_eq_range']

theorem matchPositions_eq_nil_of_short {buf : List Nat}
    (h : buf.length < DELIMITER.length) : matchPositions buf = [] := by
  rw [matchPositions, List.filter_eq_nil_iff]
  intro i _ hm
  exact absurd (matchAt_le hm) (by omega)

/-- Splitting a buffer: the delimiter occurrences of `u ++ v` are those of
`u` followed by those of `tail ++ v` (shifted back), where `tail` is the
last `min 5 |u|` bytes of `u` that the scanner retains as carry. -/
theorem matchPositions_append (u v : List Nat) :
    matchPositions (u ++ v) =
      matchPositions u ++
        (matchPositions (u.drop (u.length - min 5 u.length) ++ v)).map
          (fun j => (u.length - min 5 u.length) + j) := by
  set d := u.length - min 5 u.length with hd
  have hdu : d ≤ u.length := by omega
  have h6 : DELIMITER.length = 6 := rfl
  have hra : ∀ n : Nat, d ≤ n →
      List.range' 0 d ++ List.range' d (n - d) = List.range' 0 n := by
    intro n hn
    have h1 := List.range'_append 0 d (n - d) 1
    simp only [one_mul, zero_add] at h1
    have h2 : (n - d) + d = n := by omega
    rw [h2] at h1
    exact h1
  have hlen2 : (u.drop d ++ v).length = (u ++ v).length - d := by
    rw [List.length_append, List.length_append, List.length_drop]
    omega
  rw [matchPositions]
  rw [List.range_eq_range', ← hra (u ++ v).length (by rw [List.length_append]; omega),
    List.filter_append]
  congr 1
  · -- positions below d: matches of u
    have hpoint : ∀ j ∈ List.range' 0 d,
        matchAt (u ++ v) DELIMITER j = matchAt u DELIMITER j := by
      intro j hj
      rw [List.mem_range'] at hj
      obtain ⟨i0, hi0, hj0⟩ := hj
      have hj' : j < d := by omega
      exact matchAt_append_left v (by rw [h6]; omega)
    rw [List.filter_congr hpoint]
    rw [matchPositions, List.range_eq_range',
      ← hra u.length hdu, List.filter_append]
    have hnil : (List.range' d (u.length - d)).filter
        (fun j => matchAt u DELIMITER j) = [] := by
      rw [List.filter_eq_nil_iff]
      intro j hj hm
      rw [List.mem_range'] at hj
      obtain ⟨i0, hi0, hj0⟩ := hj
      have := matchAt_le hm
      omega
    rw [hnil, List.append_nil]
  · -- positions from d on: matches of (u.drop d ++ v), shifted
    rw [List.range'_eq_map_range, List.filter_map]
    have hlen3 : (u.drop d ++ v).length = (u ++ v).length - d := hlen2
    rw [matchPositions, hlen3, List.range_eq_range']
    have hcongr : ∀ j ∈ List.range' 0 ((u ++ v).length - d),
        ((fun j => matchAt (u ++ v) DELIMITER j) ∘ (fun x => d + x)) j =
          matchAt (u.drop d ++ v) DELIMITER j := by
      intro j _
      simp only [Function.comp]
      exact matchAt_append_drop v hdu DELIMITER j
    rw [List.filter_congr hcongr]

theorem delim_len_sub : DELIMITER.length - 1 = 5 := rfl

/-- Once at least 5 bytes are present, appending more bytes does not change
the `startsWithFromLine` verdict. -/
theorem startsWithFromLine_append {u : List Nat} (b : List Nat)
    (h : DELIMITER_START.length ≤ u.length) :
    startsWithFromLine (u ++ b) = startsWithFromLine u := by
  rw [delimStart_len] at h
  have h1 : ¬ ((u ++ b).length < DELIMITER_START.length) := by
    rw [List.length_append, delimStart_len]; omega
  have h2 : ¬ (u.length < DELIMITER_START.length) := by rw [delimStart_len]; omega
  simp only [startsWithFromLine, if_neg h1, if_neg h2]
  rw [List.take_append_eq_append_take]
  have h0 : DELIMITER_START.length - u.length = 0 := by rw [delimStart_len]; omega
  rw [h0, List.take_zero, List.append_nil]

/-- `startsWithFromLine` is the same as: the first 5 bytes are `"From "`. -/
theorem startsWithFromLine_iff (s : List Nat) :
    startsWithFromLine s = true ↔ s.take DELIMITER_START.length = DELIMITER_START := by
  rw [startsWithFromLine]
  by_cases h : s.length < DELIMITER_START.length
  · rw [if_pos h]
    simp only [Bool.false_eq_true, false_iff]
    intro heq
    have hlen := congrArg List.length heq
    rw [List.length_take, delimStart_len] at hlen
    rw [delimStart_len] at h
    omega
  · rw [if_neg h]
    exact beq_iff_eq

/-- When the bytes seen so far are evidently not a prefix of `"From "`, the
first-chunk check resolves the same way however the stream continues. -/
theorem firstChunkCheck_notPrefix {u : List Nat} (b : List Nat) (strict : Bool)
    (hlen : u.length < DELIMITER_START.length)
    (hnp : (DELIMITER_START.take u.length == u) = false) :
    firstChunkCheck true strict (u ++ b) =
      (if strict then .error () else .ok ([], false)) := by
  have hne : DELIMITER_START.take u.length ≠ u := beq_eq_false_iff_ne.mp hnp
  unfold firstChunkCheck
  rw [if_pos rfl]
  by_cases h5 : DELIMITER_START.length ≤ (u ++ b).length
  · have hsw : startsWithFromLine (u ++ b) = false := by
      rw [startsWithFromLine, if_neg (by omega)]
      rw [beq_eq_false_iff_ne]
      intro heq
      apply hne
      have h1 : ((u ++ b).take DELIMITER_START.length).take u.length =
          DELIMITER_START.take u.length := by rw [heq]
      rw [List.take_take] at h1
      have hmin : min u.length DELIMITER_START.length = u.length := by
        rw [delimStart_len] at hlen ⊢; omega
      rw [hmin, List.take_left] at h1
      exact h1.symm
    rw [if_pos h5, if_neg (by rw [hsw]; simp)]
  · have hsw2 : (DELIMITER_START.take (u ++ b).length == (u ++ b)) = false := by
      rw [beq_eq_false_iff_ne]
      intro heq
      apply hne
      have h1 : (DELIMITER_START.take (u ++ b).length).take u.length =
          DELIMITER_START.take u.length := by
        rw [List.take_take]
        congr 1
        rw [List.length_append]
        omega
      rw [heq, List.take_left] at h1
      exact h1.symm
    rw [if_neg h5, if_neg (by rw [hsw2]; simp)]

/-- Inversion of `firstChunkCheck` success. -/
theorem firstChunkCheck_ok_cases {isFirst strict : Bool} {u : List Nat}
    {fo : List Int} {sf : Bool}
    (h : firstChunkCheck isFirst strict u = .ok (fo, sf)) :
    (isFirst = false ∧ fo = [] ∧ sf = false) ∨
    (isFirst = true ∧ DELIMITER_START.length ≤ u.length ∧
      startsWithFromLine u = true ∧ fo = [0] ∧ sf = false) ∨
    (isFirst = true ∧ DELIMITER_START.length ≤ u.length ∧
      startsWithFromLine u = false ∧ strict = false ∧ fo = [] ∧ sf = false) ∨
    (isFirst = true ∧ u.length < DELIMITER_START.length ∧
      (DELIMITER_START.take u.length == u) = true ∧ fo = [] ∧ sf = true) ∨
    (isFirst = true ∧ u.length < DELIMITER_START.length ∧
      (DELIMITER_START.take u.length == u) = false ∧ strict = false ∧
      fo = [] ∧ sf = false) := by
  unfold firstChunkCheck at h
  by_cases h1 : isFirst = true
  · rw [if_pos h1] at h
    by_cases h2 : DELIMITER_START.length ≤ u.length
    · rw [if_pos h2] at h
      by_cases h3 : startsWithFromLine u = true
      · rw [if_pos h3] at h
        rw [Except.ok.injEq, Prod.mk.injEq] at h
        exact Or.inr (Or.inl ⟨h1, h2, h3, h.1.symm, h.2.symm⟩)
      · rw [if_neg h3] at h
        by_cases h4 : strict = true
        · rw [if_pos h4] at h
          exact absurd h (by simp)
        · rw [if_neg h4] at h
          rw [Except.ok.injEq, Prod.mk.injEq] at h
          exact Or.inr (Or.inr (Or.inl
            ⟨h1, h2, by simpa using h3, by simpa using h4, h.1.symm, h.2.symm⟩))
    · rw [if_neg h2] at h
      by_cases h5 : (DELIMITER_START.take u.length == u) = true
      · rw [if_pos h5] at h
        rw [Except.ok.injEq, Prod.mk.injEq] at h
        exact Or.inr (Or.inr (Or.inr (Or.inl
          ⟨h1, by omega, h5, h.1.symm, h.2.symm⟩)))
      · rw [if_neg h5] at h
        by_cases h6 : strict = true
        · rw [if_pos h6] at h
          exact absurd h (by simp)
        · rw [if_neg h6] at h
          rw [Except.ok.injEq, Prod.mk.injEq] at h
          exact Or.inr (Or.inr (Or.inr (Or.inr
            ⟨h1, by omega, by simpa using h5, by simpa using h6,
              h.1.symm, h.2.symm⟩)))
  · rw [if_neg h1] at h
    rw [Except.ok.injEq, Prod.mk.injEq] at h
    exact Or.inl ⟨by simpa using h1, h.1.symm, h.2.symm⟩

/-- Inversion of `firstChunkCheck` failure. -/
theorem firstChunkCheck_error_cases {isFirst strict : Bool} {u : List Nat}
    (h : firstChunkCheck isFirst strict u = .error ()) :
    isFirst = true ∧ strict = true ∧
      ((DELIMITER_START.length ≤ u.length ∧ startsWithFromLine u = false) ∨
        (u.length < DELIMITER_START.length ∧
          (DELIMITER_START.take u.length == u) = false)) := by
  unfold firstChunkCheck at h
  by_cases h1 : isFirst = true
  · rw [if_pos h1] at h
    by_cases h2 : DELIMITER_START.length ≤ u.length
    · rw [if_pos h2] at h
      by_cases h3 : startsWithFromLine u = true
      · rw [if_pos h3] at h
        exact absurd h (by simp)
      · rw [if_neg h3] at h
        by_cases h4 : strict = true
        · exact ⟨h1, h4, Or.inl ⟨h2, by simpa using h3⟩⟩
        · rw [if_neg h4] at h
          exact absurd h (by simp)
    · rw [if_neg h2] at h
      by_cases h5 : (DELIMITER_START.take u.length == u) = true
      · rw [if_pos h5] at h
        exact absurd h (by simp)
      · rw [if_neg h5] at h
        by_cases h6 : strict = true
        · exact ⟨h1, h6, Or.inr ⟨by omega, by simpa using h5⟩⟩
        · rw [if_neg h6] at h
          exact absurd h (by simp)
  · rw [if_neg h1] at h
    exact absurd h (by simp)

/-- What `transform` returns once the first-chunk block has been resolved. -/
theorem transform_eq_of_fcc_ok {s : ScannerState} {c : List Nat}
    {fo : List Int} {sf : Bool}
    (hf : firstChunkCheck s.isFirstChunk s.strict (s.tail ++ c) = .ok (fo, sf)) :
    transform s c = .ok
      (fo ++ (matchPositions (s.tail ++ c)).map
        (fun m : Nat => (s.absoluteOffset : Int) + ((m : Int) - (s.tail.length : Int)) + 1),
      { absoluteOffset := s.absoluteOffset + c.length,
        tail := if sf then (s.tail ++ c).take DELIMITER_START.length
          else (s.tail ++ c).drop
            ((s.tail ++ c).length - min (DELIMITER.length - 1) (s.tail ++ c).length),
        isFirstChunk := sf, strict := s.strict }) := by
  simp only [transform, hf]
  rw [scanMatches_eq_matchPositions]

theorem transform_eq_of_fcc_error {s : ScannerState} {c : List Nat}
    (hf : firstChunkCheck s.isFirstChunk s.strict (s.tail ++ c) = .error ()) :
    transform s c = .error () := by
  simp [transform, hf]

/-- Inversion of a successful `transform` call. -/
theorem transform_ok_inv {s : ScannerState} {c : List Nat} {o : List Int}
    {s1 : ScannerState} (h : transform s c = .ok (o, s1)) :
    ∃ fo sf, firstChunkCheck s.isFirstChunk s.strict (s.tail ++ c) = .ok (fo, sf) ∧
      o = fo ++ (matchPositions (s.tail ++ c)).map
        (fun m : Nat => (s.absoluteOffset : Int) + ((m : Int) - (s.tail.length : Int)) + 1) ∧
      s1 = { absoluteOffset := s.absoluteOffset + c.length,
             tail := if sf then (s.tail ++ c).take DELIMITER_START.length
               else (s.tail ++ c).drop
                 ((s.tail ++ c).length - min (DELIMITER.length - 1) (s.tail ++ c).length),
             isFirstChunk := sf, strict := s.strict } := by
  cases hf : firstChunkCheck s.isFirstChunk s.strict (s.tail ++ c) with
  | error e =>
    cases e
    rw [transform_eq_of_fcc_error hf] at h
    exact absurd h (by simp)
  | ok p =>
    obtain ⟨fo, sf⟩ := p
    rw [transform_eq_of_fcc_ok hf] at h
    rw [Except.ok.injEq, Prod.mk.injEq] at h
    exact ⟨fo, sf, rfl, h.1.symm, h.2.symm⟩

theorem transform_error_inv {s : ScannerState} {c : List Nat}
    (h : transform s c = .error ()) :
    firstChunkCheck s.isFirstChunk s.strict (s.tail ++ c) = .error () := by
  cases hf : firstChunkCheck s.isFirstChunk s.strict (s.tail ++ c) with
  | error e => cases e; rfl
  | ok p =>
    obtain ⟨fo, sf⟩ := p
    rw [transform_eq_of_fcc_ok hf] at h
    exact absurd h (by simp)

/-- Composing the carry computation: taking the carry of `u`, appending `b`
and taking the carry of the result is the same as taking the carry of
`u ++ b` directly. -/
theorem tailAfter_compose (u b : List Nat) :
    (u.drop (u.length - min 5 u.length) ++ b).drop
        ((u.drop (u.length - min 5 u.length) ++ b).length -
          min 5 (u.drop (u.length - min 5 u.length) ++ b).length) =
      (u ++ b).drop ((u ++ b).length - min 5 (u ++ b).length) := by
  set d := u.length - min 5 u.length with hd
  have hdu : d ≤ u.length := by omega
  have hsplit : u.drop d ++ b = (u ++ b).drop d := by
    rw [List.drop_append_eq_append_drop]
    have h0 : d - u.length = 0 := by omega
    rw [h0, List.drop_zero]
  rw [hsplit, List.drop_drop]
  congr 1
  simp only [List.length_drop, List.length_append]
  omega

/-- Gluing the boundary offsets: scanning `u ++ b` at once yields the
offsets of scanning `u` followed by those of scanning `carry ++ b` with the
advanced absolute offset. -/
theorem steady_glue (abs k alen : Nat) (u b : List Nat)
    (hu : u.length = k + alen) :
    (matchPositions (u ++ b)).map
        (fun m : Nat => (abs : Int) + ((m : Int) - (k : Int)) + 1) =
      (matchPositions u).map
          (fun m : Nat => (abs : Int) + ((m : Int) - (k : Int)) + 1) ++
        (matchPositions (u.drop (u.length - min 5 u.length) ++ b)).map
          (fun m : Nat => ((abs + alen : Nat) : Int) +
            ((m : Int) - ((u.drop (u.length - min 5 u.length)).length : Int)) + 1) := by
  rw [matchPositions_append u b, List.map_append, List.map_map]
  congr 1
  apply List.map_congr_left
  intro j hj
  simp only [Function.comp, List.length_drop]
  omega

theorem fcc_eval_false (strict : Bool) (sb : List Nat) :
    firstChunkCheck false strict sb = .ok ([], false) := rfl

theorem fcc_eval_from {sb : List Nat} (strict : Bool)
    (h5 : DELIMITER_START.length ≤ sb.length)
    (hsw : startsWithFromLine sb = true) :
    firstChunkCheck true strict sb = .ok ([0], false) := by
  unfold firstChunkCheck
  rw [if_pos rfl, if_pos h5, if_pos hsw]

theorem fcc_eval_notfrom_lax {sb : List Nat}
    (h5 : DELIMITER_START.length ≤ sb.length)
    (hsw : startsWithFromLine sb = false) :
    firstChunkCheck true false sb = .ok ([], false) := by
  unfold firstChunkCheck
  rw [if_pos rfl, if_pos h5, if_neg (by rw [hsw]; simp), if_neg (by simp)]

theorem fcc_eval_notfrom_strict {sb : List Nat}
    (h5 : DELIMITER_START.length ≤ sb.length)
    (hsw : startsWithFromLine sb = false) :
    firstChunkCheck true true sb = .error () := by
  unfold firstChunkCheck
  rw [if_pos rfl, if_pos h5, if_neg (by rw [hsw]; simp), if_pos rfl]

theorem fcc_eval_short_notpre_strict {sb : List Nat}
    (hshort : sb.length < DELIMITER_START.length)
    (hnp : (DELIMITER_START.take sb.length == sb) = false) :
    firstChunkCheck true true sb = .error () := by
  unfold firstChunkCheck
  rw [if_pos rfl, if_neg (by omega), if_neg (by rw [hnp]; simp), if_pos rfl]

/-- A strict-mode error in one call also occurs when more bytes are appended
to that call's chunk. -/
theorem transform_append_error_left {s : ScannerState} {a : List Nat}
    (b : List Nat) (h : transform s a = .error ()) :
    transform s (a ++ b) = .error () := by
  obtain ⟨abs, tl, fst, strt⟩ := s
  have hf := transform_error_inv h
  dsimp only at hf
  obtain ⟨hfirst, hstrict, hcases⟩ := firstChunkCheck_error_cases hf
  subst hfirst
  subst hstrict
  apply transform_eq_of_fcc_error
  dsimp only
  rw [← List.append_assoc]
  rcases hcases with ⟨h5, hsw⟩ | ⟨hshort, hnp⟩
  · refine fcc_eval_notfrom_strict ?h5w ?hsww
    case h5w => rw [List.length_append]; omega
    case hsww => rw [startsWithFromLine_append b h5]; exact hsw
  · rw [firstChunkCheck_notPrefix b true hshort hnp]
    simp

/-- If a call leaves the first-chunk decision pending and a later call hits
the strict-mode error, appending the chunks errors too, and the earlier call
emitted nothing. -/
theorem transform_append_error_right {s : ScannerState} {a b : List Nat}
    {o1 : List Int} {s1 : ScannerState} (h1 : transform s a = .ok (o1, s1))
    (h2 : transform s1 b = .error ()) :
    transform s (a ++ b) = .error () ∧ o1 = [] := by
  obtain ⟨abs, tl, fst, strt⟩ := s
  obtain ⟨fo1, sf1, hf1, ho1, hs1⟩ := transform_ok_inv h1
  dsimp only at hf1 ho1 hs1
  subst hs1
  have hf2 := transform_error_inv h2
  dsimp only at hf2
  obtain ⟨hfirst2, hstrict2, hcases2⟩ := firstChunkCheck_error_cases hf2
  subst hfirst2
  subst hstrict2
  rcases firstChunkCheck_ok_cases hf1 with ⟨_, _, hsf⟩ | ⟨_, _, _, _, hsf⟩ |
    ⟨_, _, _, _, _, hsf⟩ | ⟨hfst, hshort, hcs, hfo, _⟩ | ⟨_, _, _, _, _, hsf⟩
  · exact absurd hsf (by simp)
  · exact absurd hsf (by simp)
  · exact absurd hsf (by simp)
  · have htake : (tl ++ a).take DELIMITER_START.length = tl ++ a :=
      List.take_of_length_le (by omega)
    rw [if_pos rfl, htake] at hcases2
    constructor
    · apply transform_eq_of_fcc_error
      dsimp only
      subst hfst
      rw [← List.append_assoc]
      rcases hcases2 with ⟨h5, hsw⟩ | ⟨hshort2, hnp2⟩
      · exact fcc_eval_notfrom_strict h5 hsw
      · exact fcc_eval_short_notpre_strict hshort2 hnp2
    · rw [ho1, hfo, matchPositions_eq_nil_of_short
        (by rw [delimStart_len] at hshort; rw [delim_len]; omega)]
      simp
  · exact absurd hsf (by simp)

/-- The steady-state composition: once the first call resolved the
first-chunk decision to `false`, composing with any further call agrees
with the single combined call. -/
theorem transform_append_ok_steady {abs : Nat} {tl : List Nat}
    {fst strt : Bool} {a b : List Nat} {fo1 : List Int} {o2 : List Int}
    {s2 : ScannerState}
    (hw : firstChunkCheck fst strt (tl ++ (a ++ b)) = .ok (fo1, false))
    (h2 : transform
      { absoluteOffset := abs + a.length,
        tail := (tl ++ a).drop
          ((tl ++ a).length - min (DELIMITER.length - 1) (tl ++ a).length),
        isFirstChunk := false, strict := strt } b = .ok (o2, s2)) :
    transform { absoluteOffset := abs, tail := tl, isFirstChunk := fst,
                strict := strt } (a ++ b) =
      .ok ((fo1 ++ (matchPositions (tl ++ a)).map
          (fun m : Nat => (abs : Int) + ((m : Int) - (tl.length : Int)) + 1)) ++ o2,
        s2) := by
  obtain ⟨fo2, sf2, hf2, ho2, hs2⟩ := transform_ok_inv h2
  dsimp only at hf2 ho2 hs2
  rw [fcc_eval_false] at hf2
  rw [Except.ok.injEq, Prod.mk.injEq] at hf2
  obtain ⟨hfo2, hsf2⟩ := hf2
  subst hfo2
  subst hsf2
  rw [transform_eq_of_fcc_ok (s := ⟨abs, tl, fst, strt⟩) (c := a ++ b) hw]
  rw [Except.ok.injEq, Prod.mk.injEq]
  constructor
  · -- the emitted boundary offsets agree
    rw [ho2, List.nil_append, List.append_assoc]
    congr 1
    dsimp only
    rw [← List.append_assoc tl a b, delim_len_sub]
    exact steady_glue abs tl.length a.length (tl ++ a) b
      (by rw [List.length_append])
  · -- the final states agree
    rw [hs2]
    dsimp only
    rw [ScannerState.mk.injEq]
    refine ⟨?habs, ?htail, rfl, rfl⟩
    case habs => rw [List.length_append]; omega
    case htail =>
      simp only [Bool.false_eq_true, if_false]
      rw [delim_len_sub, ← List.append_assoc tl a b]
      exact (tailAfter_compose (tl ++ a) b).symm

/-- Feeding `a ++ b` in one call produces the same outputs and state as
feeding `a` and then `b`. -/
theorem transform_append_ok {s : ScannerState} {a b : List Nat}
    {o1 o2 : List Int} {s1 s2 : ScannerState}
    (h1 : transform s a = .ok (o1, s1)) (h2 : transform s1 b = .ok (o2, s2)) :
    transform s (a ++ b) = .ok (o1 ++ o2, s2) := by
  obtain ⟨abs, tl, fst, strt⟩ := s
  obtain ⟨fo1, sf1, hf1, ho1, hs1⟩ := transform_ok_inv h1
  dsimp only at hf1 ho1 hs1
  subst hs1
  subst ho1
  rcases firstChunkCheck_ok_cases hf1 with
    ⟨hfst, hfo, hsf⟩ | ⟨hfst, h5, hsw, hfo, hsf⟩ |
    ⟨hfst, h5, hsw, hstr, hfo, hsf⟩ | ⟨hfst, hshort, hcs, hfo, hsf⟩ |
    ⟨hfst, hshort, hcs, hstr, hfo, hsf⟩
  · -- the call on `a` was not the first chunk
    subst hsf; subst hfo; subst hfst
    simp only [Bool.false_eq_true, if_false] at h2
    exact transform_append_ok_steady (fcc_eval_false strt _) h2
  · -- first chunk, long enough, starts with "From "
    subst hsf; subst hfo; subst hfst
    simp only [Bool.false_eq_true, if_false] at h2
    have hw : firstChunkCheck true strt (tl ++ (a ++ b)) = .ok ([0], false) := by
      rw [← List.append_assoc]
      exact fcc_eval_from strt (by rw [List.length_append]; omega)
        (by rw [startsWithFromLine_append b h5]; exact hsw)
    exact transform_append_ok_steady hw h2
  · -- first chunk, long enough, not "From ", non-strict
    subst hsf; subst hfo; subst hfst; subst hstr
    simp only [Bool.false_eq_true, if_false] at h2
    have hw : firstChunkCheck true false (tl ++ (a ++ b)) = .ok ([], false) := by
      rw [← List.append_assoc]
      exact fcc_eval_notfrom_lax (by rw [List.length_append]; omega)
        (by rw [startsWithFromLine_append b h5]; exact hsw)
    exact transform_append_ok_steady hw h2
  · -- first chunk still pending after the call on `a`
    subst hsf; subst hfo; subst hfst
    rw [if_pos rfl] at h2
    have htake : (tl ++ a).take DELIMITER_START.length = tl ++ a :=
      List.take_of_length_le (by omega)
    rw [htake] at h2
    obtain ⟨fo2, sf2, hf2, ho2, hs2⟩ := transform_ok_inv h2
    dsimp only at hf2 ho2 hs2
    have hw : firstChunkCheck true strt (tl ++ (a ++ b)) = .ok (fo2, sf2) := by
      rw [← List.append_assoc]
      exact hf2
    rw [transform_eq_of_fcc_ok (s := ⟨abs, tl, true, strt⟩) (c := a ++ b) hw]
    rw [Except.ok.injEq, Prod.mk.injEq]
    dsimp only
    constructor
    · -- outputs agree
      have hnil : matchPositions (tl ++ a) = [] :=
        matchPositions_eq_nil_of_short
          (by rw [delimStart_len] at hshort; rw [delim_len]; omega)
      rw [ho2, hnil]
      simp only [List.map_nil, List.nil_append, List.append_nil]
      congr 1
      rw [← List.append_assoc]
      apply List.map_congr_left
      intro m hm
      simp only [List.length_append]
      omega
    · -- states agree
      rw [hs2]
      rw [ScannerState.mk.injEq]
      refine ⟨by rw [List.length_append]; omega, ?htail, rfl, rfl⟩
      case htail => rw [← List.append_assoc]
  · -- first chunk, short, not a prefix of "From ", non-strict
    subst hsf; subst hfo; subst hfst; subst hstr
    simp only [Bool.false_eq_true, if_false] at h2
    have hw : firstChunkCheck true false (tl ++ (a ++ b)) = .ok ([], false) := by
      rw [← List.append_assoc, firstChunkCheck_notPrefix b false hshort hcs]
      simp
    exact transform_append_ok_steady hw h2

theorem inv_init (strict : Bool) : Inv (initState strict) := by
  refine ⟨fun _ => ⟨?_, ?_⟩, fun h => by simp [initState] at h⟩
  · simp [initState, delimStart_len]
  · simp [initState]

theorem length_tailDrop_le (u : List Nat) :
    (u.drop (u.length - min (DELIMITER.length - 1) u.length)).length ≤
      DELIMITER.length - 1 := by
  rw [List.length_drop, delim_len]
  omega

/-- Any successful `transform` call leaves the scanner in an invariant
state. -/
theorem inv_preserved {s : ScannerState} {c : List Nat} {o : List Int}
    {s1 : ScannerState} (h : transform s c = .ok (o, s1)) : Inv s1 := by
  obtain ⟨fo, sf, hf, ho, hs⟩ := transform_ok_inv h
  subst hs
  rcases firstChunkCheck_ok_cases hf with
    ⟨hfst, hfo, hsf⟩ | ⟨hfst, h5, hsw, hfo, hsf⟩ |
    ⟨hfst, h5, hsw, hstr, hfo, hsf⟩ | ⟨hfst, hshort, hcs, hfo, hsf⟩ |
    ⟨hfst, hshort, hcs, hstr, hfo, hsf⟩
  · subst hsf
    refine ⟨fun hfc => absurd hfc (by simp), fun _ => ?_⟩
    simp only [Bool.false_eq_true, if_false]
    exact length_tailDrop_le _
  · subst hsf
    refine ⟨fun hfc => absurd hfc (by simp), fun _ => ?_⟩
    simp only [Bool.false_eq_true, if_false]
    exact length_tailDrop_le _
  · subst hsf
    refine ⟨fun hfc => absurd hfc (by simp), fun _ => ?_⟩
    simp only [Bool.false_eq_true, if_false]
    exact length_tailDrop_le _
  · subst hsf
    have hcseq : DELIMITER_START.take (s.tail ++ c).length = s.tail ++ c :=
      beq_iff_eq.mp hcs
    refine ⟨fun _ => ?_, fun hfc => absurd hfc (by simp)⟩
    dsimp only
    rw [if_pos rfl, List.take_of_length_le (by omega)]
    exact ⟨hshort, hcseq.symm⟩
  · subst hsf
    refine ⟨fun hfc => absurd hfc (by simp), fun _ => ?_⟩
    simp only [Bool.false_eq_true, if_false]
    exact length_tailDrop_le _

/-- On an invariant state, feeding an empty chunk changes nothing and emits
nothing. -/
theorem transform_nil_of_inv {s : ScannerState} (hInv : Inv s) :
    transform s [] = .ok ([], s) := by
  obtain ⟨abs, tl, fst, strt⟩ := s
  obtain ⟨hfirstInv, hsteadyInv⟩ := hInv
  dsimp only at hfirstInv hsteadyInv
  cases fst with
  | true =>
    obtain ⟨hlen, hpre⟩ := hfirstInv rfl
    have hf : firstChunkCheck true strt (tl ++ []) = .ok ([], true) := by
      rw [List.append_nil]
      unfold firstChunkCheck
      rw [if_pos rfl, if_neg (by omega),
        if_pos (by rw [beq_iff_eq]; exact hpre.symm)]
    rw [transform_eq_of_fcc_ok (s := ⟨abs, tl, true, strt⟩) (c := []) hf]
    rw [Except.ok.injEq, Prod.mk.injEq]
    dsimp only
    constructor
    · rw [List.append_nil, matchPositions_eq_nil_of_short
        (by rw [delimStart_len] at hlen; rw [delim_len]; omega)]
      simp
    · rw [ScannerState.mk.injEq]
      refine ⟨by simp, ?_, rfl, rfl⟩
      rw [if_pos rfl, List.append_nil, List.take_of_length_le (by omega)]
  | false =>
    have hlen := hsteadyInv rfl
    rw [delim_len] at hlen
    rw [transform_eq_of_fcc_ok (s := ⟨abs, tl, false, strt⟩) (c := [])
      (fcc_eval_false strt (tl ++ []))]
    rw [Except.ok.injEq, Prod.mk.injEq]
    dsimp only
    constructor
    · rw [List.append_nil, matchPositions_eq_nil_of_short
        (by rw [delim_len]; omega)]
      simp
    · rw [ScannerState.mk.injEq]
      refine ⟨by simp, ?_, rfl, rfl⟩
      simp only [Bool.false_eq_true, if_false]
      rw [List.append_nil]
      rw [show tl.length - min (DELIMITER.length - 1) tl.length = 0 from
        by rw [delim_len]; omega]
      exact List.drop_zero tl

/-- Feeding any chunk sequence from an invariant state is the same as
feeding the concatenation of the chunks in one call. -/
theorem runChunks_eq_scanWhole (chunks : List (List Nat)) :
    ∀ s : ScannerState, Inv s → runChunks s chunks = scanWhole s chunks.flatten := by
  induction chunks with
  | nil =>
    intro s hInv
    simp only [runChunks, List.flatten_nil, scanWhole, transform_nil_of_inv hInv]
  | cons c cs ih =>
    intro s hInv
    simp only [runChunks, List.flatten_cons, scanWhole]
    cases h1 : transform s c with
    | error e =>
      cases e
      rw [transform_append_error_left cs.flatten h1]
    | ok p =>
      obtain ⟨o1, s1⟩ := p
      dsimp only
      have hInv1 := inv_preserved h1
      cases h2 : transform s1 cs.flatten with
      | error e =>
        cases e
        obtain ⟨hsingle, ho1⟩ := transform_append_error_right h1 h2
        have hr : runChunks s1 cs = ([], none) := by
          rw [ih s1 hInv1]
          simp only [scanWhole, h2]
        rw [hsingle, hr, ho1]
        simp
      | ok p2 =>
        obtain ⟨o2, s2⟩ := p2
        have hsingle := transform_append_ok h1 h2
        have hr : runChunks s1 cs = (o2, some s2) := by
          rw [ih s1 hInv1]
          simp only [scanWhole, h2]
        rw [hsingle, hr]

/-- Scanning a chunked stream equals scanning it in one piece. -/
theorem scanMbox_eq_scanWhole (strict : Bool) (chunks : List (List Nat)) :
    scanMbox strict chunks = scanWhole (initState strict) chunks.flatten :=
  runChunks_eq_scanWhole chunks (initState strict) (inv_init strict)

/-- A one-shot scan on a fresh scanner fails exactly when strict mode is on
and the stream's leading bytes evidently fail the `"From "` check. -/
theorem scanWhole_init_error_iff (strict : Bool) (stream : List Nat) :
    (scanWhole (initState strict) stream).2 = none ↔
      strict = true ∧ evidentMismatch stream = true := by
  constructor
  · intro h
    cases ht : transform (initState strict) stream with
    | ok p => simp [scanWhole, ht] at h
    | error e =>
      cases e
      have hf := transform_error_inv ht
      simp only [initState] at hf
      rw [List.nil_append] at hf
      obtain ⟨_, hstrict, hcases⟩ := firstChunkCheck_error_cases hf
      refine ⟨hstrict, ?_⟩
      rcases hcases with ⟨h5, hsw⟩ | ⟨hshort, hnp⟩
      · rw [evidentMismatch, if_pos h5, hsw]; rfl
      · rw [evidentMismatch, if_neg (by omega), hnp]; rfl
  · rintro ⟨hstrict, hev⟩
    subst hstrict
    rw [evidentMismatch] at hev
    by_cases h5 : DELIMITER_START.length ≤ stream.length
    · rw [if_pos h5] at hev
      have hsw : startsWithFromLine stream = false := by
        cases hb : startsWithFromLine stream
        · rfl
        · rw [hb] at hev; exact absurd hev (by simp)
      have hfc : firstChunkCheck true true ([] ++ stream) = .error () := by
        rw [List.nil_append]
        exact fcc_eval_notfrom_strict h5 hsw
      have ht := transform_eq_of_fcc_error (s := initState true) hfc
      simp [scanWhole, ht]
    · rw [if_neg h5] at hev
      have hnp : (DELIMITER_START.take stream.length == stream) = false := by
        cases hb : DELIMITER_START.take stream.length == stream
        · rfl
        · rw [hb] at hev; exact absurd hev (by simp)
      have hfc : firstChunkCheck true true ([] ++ stream) = .error () := by
        rw [List.nil_append]
        exact fcc_eval_short_notpre_strict (by omega) hnp
      have ht := transform_eq_of_fcc_error (s := initState true) hfc
      simp [scanWhole, ht]

/-- When the one-shot scan fails, nothing was emitted. -/
theorem scanWhole_init_error_output {strict : Bool} {stream : List Nat}
    (h : (scanWhole (initState strict) stream).2 = none) :
    (scanWhole (initState strict) stream).1 = [] := by
  cases ht : transform (initState strict) stream with
  | ok p => simp [scanWhole, ht] at h
  | error e => simp [scanWhole, ht]

/-- Full characterization of a successful one-shot scan on a fresh scanner:
the emitted offsets are `[0]` when the stream starts with `"From "` followed
by (position + 1) for every occurrence of `"\nFrom "`, and the final state
is as the code computes it. -/
theorem scanWhole_init_output {strict : Bool} {stream : List Nat}
    {s1 : ScannerState}
    (h : (scanWhole (initState strict) stream).2 = some s1) :
    (scanWhole (initState strict) stream).1 =
      (if startsWithFromLine stream then [(0 : Int)] else []) ++
        (matchPositions stream).map (fun m : Nat => (m : Int) + 1) ∧
    s1.absoluteOffset = stream.length ∧ s1.strict = strict ∧
    (s1.isFirstChunk = true →
      s1.tail = stream ∧ stream.length < DELIMITER_START.length) ∧
    (s1.isFirstChunk = false →
      s1.tail = stream.drop
        (stream.length - min (DELIMITER.length - 1) stream.length)) ∧
    s1.tail.length ≤ DELIMITER.length - 1 ∧
    (s1.isFirstChunk = true ↔
      (stream.length < DELIMITER_START.length ∧
        DELIMITER_START.take stream.length = stream)) := by
  cases ht : transform (initState strict) stream with
  | error e => simp [scanWhole, ht] at h
  | ok p =>
    obtain ⟨o, s1x⟩ := p
    have hsw : (scanWhole (initState strict) stream).1 = o := by
      simp [scanWhole, ht]
    have hs1x : s1x = s1 := by
      have := h
      simp only [scanWhole, ht] at this
      exact (Option.some.injEq _ _).mp this
    subst hs1x
    obtain ⟨fo, sf, hf, ho, hs⟩ := transform_ok_inv ht
    simp only [initState] at hf ho hs
    rw [List.nil_append] at hf
    rw [List.nil_append] at ho
    rw [List.nil_append] at hs
    rcases firstChunkCheck_ok_cases hf with
      ⟨hfst, hfo, hsf⟩ | ⟨hfst, h5, hswt, hfo, hsf⟩ |
      ⟨hfst, h5, hswt, hstr, hfo, hsf⟩ | ⟨hfst, hshort, hcs, hfo, hsf⟩ |
      ⟨hfst, hshort, hcs, hstr, hfo, hsf⟩
    · exact absurd hfst (by simp)
    · subst hsf; subst hfo; subst hs
      refine ⟨?_, by simp, rfl, fun hfc => absurd hfc (by simp),
        fun _ => ?_, ?_, iff_of_false (by simp) (by rintro ⟨hs5, _⟩; omega)⟩
      · rw [hsw, ho, if_pos hswt]
        congr 1
        apply List.map_congr_left
        intro m _
        simp
      · dsimp only
        simp only [Bool.false_eq_true, if_false]
      · dsimp only
        simp only [Bool.false_eq_true, if_false]
        exact length_tailDrop_le stream
    · subst hsf; subst hfo; subst hs
      refine ⟨?_, by simp, rfl, fun hfc => absurd hfc (by simp),
        fun _ => ?_, ?_, iff_of_false (by simp) (by rintro ⟨hs5, _⟩; omega)⟩
      · rw [hsw, ho, if_neg (by rw [hswt]; simp)]
        rw [List.nil_append]
        apply List.map_congr_left
        intro m _
        simp
      · dsimp only
        simp only [Bool.false_eq_true, if_false]
      · dsimp only
        simp only [Bool.false_eq_true, if_false]
        exact length_tailDrop_le stream
    · subst hsf; subst hfo; subst hs
      have htake : stream.take DELIMITER_START.length = stream :=
        List.take_of_length_le (by omega)
      have hswf : startsWithFromLine stream = false := by
        rw [startsWithFromLine, if_pos hshort]
      refine ⟨?_, by simp, rfl, fun _ => ?_,
        fun hfc => absurd hfc (by simp), ?_,
        iff_of_true rfl ⟨hshort, beq_iff_eq.mp hcs⟩⟩
      · rw [hsw, ho, if_neg (by rw [hswf]; simp)]
        rw [List.nil_append]
        apply List.map_congr_left
        intro m _
        simp
      · dsimp only
        rw [if_pos rfl, htake]
        exact ⟨rfl, hshort⟩
      · dsimp only
        rw [if_pos rfl, htake]
        rw [delim_len]
        rw [delimStart_len] at hshort
        omega
    · subst hsf; subst hfo; subst hs
      have hswf : startsWithFromLine stream = false := by
        rw [startsWithFromLine, if_pos hshort]
      refine ⟨?_, by simp, rfl, fun hfc => absurd hfc (by simp),
        fun _ => ?_, ?_,
        iff_of_false (by simp)
          (by rintro ⟨_, heq⟩; exact (beq_eq_false_iff_ne.mp hcs) heq)⟩
      · rw [hsw, ho, if_neg (by rw [hswf]; simp)]
        rw [List.nil_append]
        apply List.map_congr_left
        intro m _
        simp
      · dsimp only
        simp only [Bool.false_eq_true, if_false]
      · dsimp only
        simp only [Bool.false_eq_true, if_false]
        exact length_tailDrop_le stream

theorem le_length_of_take_eq {l : List Nat}
    (h : l.take DELIMITER_START.length = DELIMITER_START) :
    DELIMITER_START.length ≤ l.length := by
  have hl := congrArg List.length h
  rw [List.length_take] at hl
  omega

theorem matchAt_false_of_matchPositions_nil {buf : List Nat}
    (h : matchPositions buf = []) (i : Nat) :
    matchAt buf DELIMITER i = false := by
  cases hb : matchAt buf DELIMITER i
  · rfl
  · exfalso
    have hle := matchAt_le hb
    have hmem : i ∈ matchPositions buf := by
      rw [matchPositions, List.mem_filter]
      refine ⟨List.mem_range.mpr (by rw [delim_len] at hle; omega), hb⟩
    rw [h] at hmem
    exact absurd hmem (List.not_mem_nil i)

theorem exists_append_of_getLast {l : List Nat} (h : l.getLast? = some 10) :
    ∃ l0, l = l0 ++ [10] := by
  have hne : l ≠ [] := by
    intro h0
    rw [h0] at h
    exact absurd h (by simp)
  refine ⟨l.dropLast, ?_⟩
  have hdg := List.dropLast_append_getLast hne
  have hg : l.getLast hne = 10 := by
    have hsome := List.getLast?_eq_getLast l hne
    rw [hsome] at h
    exact (Option.some.injEq _ _).mp h
  rw [hg] at hdg
  exact hdg.symm

theorem matchAt_getElem? {buf pat : List Nat} {i : Nat}
    (h : matchAt buf pat i = true) {r : Nat} (hr : r < pat.length) :
    buf[i + r]? = pat[r]? := by
  simp only [matchAt, beq_iff_eq] at h
  have hx : ((buf.drop i).take pat.length)[r]? = pat[r]? := by rw [h]
  rw [List.getElem?_take, if_pos hr, List.getElem?_drop] at hx
  exact hx

/-- Straddle characterization: when `A` ends in a newline and `B` starts
with `"From "`, the delimiter occurs in `A ++ B` exactly at occurrences
inside `A`, at the junction (the newline ending `A`), or at occurrences
inside `B` (shifted). -/
theorem matchAt_append_boundary {A B : List Nat} (hA : A.getLast? = some 10)
    (hB : B.take DELIMITER_START.length = DELIMITER_START) (i : Nat) :
    matchAt (A ++ B) DELIMITER i = true ↔
      (matchAt A DELIMITER i = true ∨ i = A.length - 1 ∨
        (A.length ≤ i ∧ matchAt B DELIMITER (i - A.length) = true)) := by
  obtain ⟨A0, hA0⟩ := exists_append_of_getLast hA
  subst hA0
  have hAlen : (A0 ++ [10]).length = A0.length + 1 := by
    rw [List.length_append]
    rfl
  constructor
  · intro h
    have hle := matchAt_le h
    rw [List.length_append] at hle
    by_cases hc1 : i + DELIMITER.length ≤ (A0 ++ [10]).length
    · left
      rw [← matchAt_append_left B hc1]
      exact h
    · by_cases hc2 : (A0 ++ [10]).length ≤ i
      · right; right
        refine ⟨hc2, ?_⟩
        have hsh := matchAt_append_drop B (le_refl (A0 ++ [10]).length)
          DELIMITER (i - (A0 ++ [10]).length)
        rw [List.drop_length, List.nil_append] at hsh
        rw [← hsh, Nat.add_sub_cancel' hc2]
        exact h
      · right; left
        by_contra hne
        have hiA : i < (A0 ++ [10]).length := by omega
        obtain ⟨r, hrdef⟩ : ∃ r, r = (A0 ++ [10]).length - 1 - i := ⟨_, rfl⟩
        have hr6 : r < DELIMITER.length := by rw [delim_len] at hc1 ⊢; omega
        have hbyte := matchAt_getElem? h hr6
        have hidx : i + r = (A0 ++ [10]).length - 1 := by omega
        rw [hidx] at hbyte
        have hAelem : (A0 ++ [10])[(A0 ++ [10]).length - 1]? = some 10 := by
          rw [hAlen, Nat.add_sub_cancel,
            List.getElem?_append_right (le_refl _), Nat.sub_self]
          rfl
        rw [List.getElem?_append] at hbyte
        rw [if_pos (by omega)] at hbyte
        rw [hAelem] at hbyte
        have hr1 : 1 ≤ r := by omega
        have hrcases : r = 1 ∨ r = 2 ∨ r = 3 ∨ r = 4 ∨ r = 5 := by
          rw [delim_len] at hr6; omega
        rcases hrcases with rfl | rfl | rfl | rfl | rfl <;>
          exact absurd hbyte (by decide)
  · intro h
    rcases h with hm | hm | ⟨hge, hm⟩
    · rw [matchAt_append_left B (matchAt_le hm)]
      exact hm
    · subst hm
      have hdrop : ((A0 ++ [10]) ++ B).drop ((A0 ++ [10]).length - 1) =
          10 :: B := by
        rw [hAlen, Nat.add_sub_cancel, List.append_assoc, List.drop_left]
        rfl
      simp only [matchAt, beq_iff_eq]
      rw [hdrop, show DELIMITER.length = 5 + 1 from rfl,
        List.take_succ_cons, show DELIMITER = 10 :: DELIMITER_START from rfl,
        List.cons.injEq]
      exact ⟨rfl, hB⟩
    · have hsh := matchAt_append_drop B (le_refl (A0 ++ [10]).length)
        DELIMITER (i - (A0 ++ [10]).length)
      rw [List.drop_length, List.nil_append] at hsh
      rw [← Nat.add_sub_cancel' hge, hsh]
      exact hm

/-- Filtering a range by a predicate that holds exactly at `a` and `b`. -/
theorem filter_range_pair {p : Nat → Bool} {a b : Nat} (hab : a < b)
    (h : ∀ i, p i = true ↔ (i = a ∨ i = b)) (n : Nat) :
    (List.range n).filter p =
      (if a < n then [a] else []) ++ (if b < n then [b] else []) := by
  induction n with
  | zero => simp
  | succ k ih =>
    rw [List.range_succ, List.filter_append, ih]
    by_cases hk : p k = true
    · have hfk : List.filter p [k] = [k] := by
        simp [List.filter_cons, hk]
      rw [hfk]
      rcases (h k).mp hk with hke | hke
      · rw [if_neg (show ¬ a < k by omega), if_neg (show ¬ b < k by omega),
          if_pos (show a < k + 1 by omega),
          if_neg (show ¬ b < k + 1 by omega), hke]
        simp
      · rw [if_pos (show a < k by omega), if_neg (show ¬ b < k by omega),
          if_pos (show a < k + 1 by omega),
          if_pos (show b < k + 1 by omega), hke]
        simp
    · have hk' : p k = false := by
        revert hk
        cases p k <;> simp
      have hka : k ≠ a := fun he => hk ((h k).mpr (Or.inl he))
      have hkb : k ≠ b := fun he => hk ((h k).mpr (Or.inr he))
      have hfk : List.filter p [k] = [] := by
        simp [List.filter_cons, hk']
      rw [hfk, List.append_nil]
      by_cases haa : a < k
      · rw [if_pos haa, if_pos (show a < k + 1 by omega)]
        by_cases hbb : b < k
        · rw [if_pos hbb, if_pos (show b < k + 1 by omega)]
        · rw [if_neg hbb, if_neg (show ¬ b < k + 1 by omega)]
      · rw [if_neg haa, if_neg (show ¬ a < k + 1 by omega)]
        by_cases hbb : b < k
        · rw [if_pos hbb, if_pos (show b < k + 1 by omega)]
        · rw [if_neg hbb, if_neg (show ¬ b < k + 1 by omega)]

theorem matchPositions_eq_pair {buf : List Nat} {a b : Nat} (hab : a < b)
    (hbn : b < buf.length)
    (h : ∀ i, matchAt buf DELIMITER i = true ↔ (i = a ∨ i = b)) :
    matchPositions buf = [a, b] := by
  rw [matchPositions, filter_range_pair hab h buf.length,
    if_pos (by omega), if_pos hbn]
  rfl

/-- C1: Chunking invariance / determinism — for every byte string and every
two partitions of it into chunks (any sizes, zero-length chunks included),
feeding either partition in order to a freshly constructed scanner with the
same strictMode produces exactly the same ordered list of boundary offsets
and the same error-or-success outcome (here: full equality of the scan
results, outputs and final state or error alike). -/
theorem chunking_invariance (strict : Bool) (chunks1 chunks2 : List (List Nat))
    (h : chunks1.flatten = chunks2.flatten) :
    scanMbox strict chunks1 = scanMbox strict chunks2 := by
  rw [scanMbox_eq_scanWhole, scanMbox_eq_scanWhole, h]

theorem chunking_invariance_witness :
    ([[10, 70, 114], [], [111, 109, 32]] : List (List Nat)).flatten =
        ([[10, 70, 114, 111, 109, 32]] : List (List Nat)).flatten ∧
      scanMbox false [[10, 70, 114], [], [111, 109, 32]] =
        scanMbox false [[10, 70, 114, 111, 109, 32]] :=
  ⟨by decide, chunking_invariance false _ _ (by decide)⟩

/-- C2 (counterexample): scanning the spec's worked example input in one
chunk in non-strict mode does not yield the boundary offsets `[0, 41]`
claimed by the spec. -/
theorem worked_example_counterexample :
    (scanMbox false [exampleInput]).1 ≠ [(0 : Int), 41] := by decide

/-- C2 (amended): scanning the worked example input under any chunking in
non-strict mode yields exactly the boundary offsets `[0, 35]`, the second
value being the byte length of the first message through its trailing
newline before the second `"From "`. -/
theorem worked_example_amended (chunks : List (List Nat))
    (h : chunks.flatten = exampleInput) :
    (scanMbox false chunks).1 = [(0 : Int), 35] := by
  rw [scanMbox_eq_scanWhole, h]
  decide

theorem worked_example_amended_witness :
    ([exampleInput] : List (List Nat)).flatten = exampleInput ∧
      (scanMbox false [exampleInput]).1 = [(0 : Int), 35] :=
  ⟨by decide, worked_example_amended [exampleInput] (by decide)⟩

/-- C3: Offset-zero case — if the stream's first five bytes are exactly
`"From "`, the scanner emits a boundary at offset 0 (under any chunking and
either strict mode); if the stream has at least five bytes and they are not
`"From "`, then in non-strict mode no boundary at offset 0 is ever emitted
and in strict mode the validation error is raised instead. -/
theorem offset_zero_case (strict : Bool) (chunks : List (List Nat)) :
    (chunks.flatten.take DELIMITER_START.length = DELIMITER_START →
      (0 : Int) ∈ (scanMbox strict chunks).1) ∧
    (DELIMITER_START.length ≤ chunks.flatten.length →
      chunks.flatten.take DELIMITER_START.length ≠ DELIMITER_START →
      (strict = false → (0 : Int) ∉ (scanMbox strict chunks).1) ∧
      (strict = true → (scanMbox strict chunks).2 = none)) := by
  rw [scanMbox_eq_scanWhole]
  constructor
  · intro htake
    have hlen5 : DELIMITER_START.length ≤ chunks.flatten.length :=
      le_length_of_take_eq htake
    have hswt : startsWithFromLine chunks.flatten = true :=
      (startsWithFromLine_iff chunks.flatten).mpr htake
    cases hopt : (scanWhole (initState strict) chunks.flatten).2 with
    | none =>
      exfalso
      obtain ⟨_, hev⟩ := (scanWhole_init_error_iff strict chunks.flatten).mp hopt
      rw [evidentMismatch, if_pos hlen5, hswt] at hev
      exact absurd hev (by simp)
    | some s1 =>
      obtain ⟨hout, _⟩ := scanWhole_init_output hopt
      rw [hout, if_pos hswt]
      exact List.mem_append.mpr (Or.inl (by simp))
  · intro hlen5 hne
    have hswf : startsWithFromLine chunks.flatten = false := by
      cases hb : startsWithFromLine chunks.flatten
      · rfl
      · exact absurd ((startsWithFromLine_iff chunks.flatten).mp hb) hne
    have hev : evidentMismatch chunks.flatten = true := by
      rw [evidentMismatch, if_pos hlen5, hswf]
      rfl
    constructor
    · intro hstrict
      subst hstrict
      cases hopt : (scanWhole (initState false) chunks.flatten).2 with
      | none =>
        exfalso
        obtain ⟨hcontra, _⟩ :=
          (scanWhole_init_error_iff false chunks.flatten).mp hopt
        exact absurd hcontra (by simp)
      | some s1 =>
        obtain ⟨hout, _⟩ := scanWhole_init_output hopt
        rw [hout, if_neg (by rw [hswf]; simp), List.nil_append]
        intro hmem
        obtain ⟨m, _, hm⟩ := List.mem_map.mp hmem
        omega
    · intro hstrict
      subst hstrict
      exact (scanWhole_init_error_iff true chunks.flatten).mpr ⟨rfl, hev⟩

theorem offset_zero_case_witness :
    ([[70, 114, 111, 109, 32, 120]] : List (List Nat)).flatten.take
        DELIMITER_START.length = DELIMITER_START ∧
      (0 : Int) ∈ (scanMbox false [[70, 114, 111, 109, 32, 120]]).1 :=
  ⟨by decide, (offset_zero_case false [[70, 114, 111, 109, 32, 120]]).1
    (by decide)⟩

/-- C4: Strict-mode validation raises-iff and atomicity — the validation
error is raised if and only if strictMode is true and the stream's leading
bytes evidently fail to match `"From "` (at least 5 bytes received, or the
bytes received are not a prefix of `"From "`); when it is raised, no
boundary offsets are produced for that stream.  Instantiating `chunks` with
any prefix of the feed sequence gives the per-call reading: the error
surfaces in the feed call where the mismatch first becomes evident. -/
theorem strict_validation (strict : Bool) (chunks : List (List Nat)) :
    ((scanMbox strict chunks).2 = none ↔
      strict = true ∧ evidentMismatch chunks.flatten = true) ∧
    ((scanMbox strict chunks).2 = none → (scanMbox strict chunks).1 = []) := by
  rw [scanMbox_eq_scanWhole]
  exact ⟨scanWhole_init_error_iff strict chunks.flatten,
    fun h => scanWhole_init_error_output h⟩

theorem strict_validation_witness :
    (scanMbox true [[88]]).2 = none ∧ (scanMbox true [[88]]).1 = [] := by
  have h := strict_validation true [[88]]
  have hnone : (scanMbox true [[88]]).2 = none := h.1.mpr ⟨rfl, by decide⟩
  exact ⟨hnone, h.2 hnone⟩

/-- C5: False-positive exclusion — every emitted boundary offset is either 0
(and then the stream starts with `"From "`), or points at a `"From "` that
is immediately preceded by a newline byte (the full 6-byte delimiter occurs
at offset − 1).  Hence an occurrence of `"From "` neither at offset 0 nor
preceded by a newline — e.g. an escaped `">From "` line or a mid-line
`"From "` — never produces a boundary. -/
theorem no_false_positive (strict : Bool) (chunks : List (List Nat)) (o : Int)
    (ho : o ∈ (scanMbox strict chunks).1) :
    (o = 0 ∧ startsWithFromLine chunks.flatten = true) ∨
    ∃ i : Nat, o = (i : Int) + 1 ∧
      matchAt chunks.flatten DELIMITER i = true := by
  rw [scanMbox_eq_scanWhole] at ho
  cases hopt : (scanWhole (initState strict) chunks.flatten).2 with
  | none =>
    rw [scanWhole_init_error_output hopt] at ho
    exact absurd ho (by simp)
  | some s1 =>
    obtain ⟨hout, _⟩ := scanWhole_init_output hopt
    rw [hout] at ho
    rcases List.mem_append.mp ho with hl | hr
    · cases hb : startsWithFromLine chunks.flatten
      · rw [if_neg (by rw [hb]; simp)] at hl
        exact absurd hl (by simp)
      · rw [if_pos hb] at hl
        have ho0 : o = 0 := by simpa using hl
        exact Or.inl ⟨ho0, rfl⟩
    · obtain ⟨m, hm, hmo⟩ := List.mem_map.mp hr
      refine Or.inr ⟨m, hmo.symm, ?_⟩
      rw [matchPositions] at hm
      exact (List.mem_filter.mp hm).2

theorem no_false_positive_witness :
    (2 : Int) ∈ (scanMbox false [[120, 10, 70, 114, 111, 109, 32, 97]]).1 ∧
      (((2 : Int) = 0 ∧
          startsWithFromLine
            ([[120, 10, 70, 114, 111, 109, 32, 97]] : List (List Nat)).flatten
            = true) ∨
        ∃ i : Nat, (2 : Int) = (i : Int) + 1 ∧
          matchAt ([[120, 10, 70, 114, 111, 109, 32, 97]] :
            List (List Nat)).flatten DELIMITER i = true) :=
  ⟨by decide, no_false_positive false _ 2 (by decide)⟩

/-- C6: Concatenation offset math — for any three byte strings `m1`, `m2`,
`m3`, each beginning with the five bytes `"From "`, each ending with a
newline byte, and none containing the six-byte sequence newline+`"From "`
internally, scanning `m1 ++ m2 ++ m3` (in either mode, under any chunking)
yields exactly the boundary offsets `0`, `len m1`, `len m1 + len m2`, in
that order, and no error. -/
theorem concat_offset_math (strict : Bool) (chunks : List (List Nat))
    (m1 m2 m3 : List Nat) (hjoin : chunks.flatten = m1 ++ m2 ++ m3)
    (h1s : m1.take DELIMITER_START.length = DELIMITER_START)
    (h2s : m2.take DELIMITER_START.length = DELIMITER_START)
    (h3s : m3.take DELIMITER_START.length = DELIMITER_START)
    (h1e : m1.getLast? = some 10) (h2e : m2.getLast? = some 10)
    (h3e : m3.getLast? = some 10)
    (h1n : matchPositions m1 = []) (h2n : matchPositions m2 = [])
    (h3n : matchPositions m3 = []) :
    (scanMbox strict chunks).1 =
      [(0 : Int), (m1.length : Int), ((m1.length + m2.length : Nat) : Int)] ∧
    (scanMbox strict chunks).2 ≠ none := by
  rw [scanMbox_eq_scanWhole, hjoin]
  have h1l := le_length_of_take_eq h1s
  have h2l := le_length_of_take_eq h2s
  have h3l := le_length_of_take_eq h3s
  rw [delimStart_len] at h1l h2l h3l
  have h23 : (m2 ++ m3).take DELIMITER_START.length = DELIMITER_START := by
    rw [List.take_append_eq_append_take,
      show DELIMITER_START.length - m2.length = 0 from by
        rw [delimStart_len]; omega,
      List.take_zero, List.append_nil]
    exact h2s
  have hswS : startsWithFromLine (m1 ++ m2 ++ m3) = true := by
    rw [List.append_assoc,
      startsWithFromLine_append (m2 ++ m3) (by rw [delimStart_len]; omega)]
    exact (startsWithFromLine_iff m1).mpr h1s
  cases hopt : (scanWhole (initState strict) (m1 ++ m2 ++ m3)).2 with
  | none =>
    exfalso
    obtain ⟨_, hev⟩ :=
      (scanWhole_init_error_iff strict (m1 ++ m2 ++ m3)).mp hopt
    have hlong : DELIMITER_START.length ≤ (m1 ++ m2 ++ m3).length := by
      rw [List.length_append, List.length_append, delimStart_len]
      omega
    rw [evidentMismatch, if_pos hlong, hswS] at hev
    exact absurd hev (by simp)
  | some s1 =>
    obtain ⟨hout, _⟩ := scanWhole_init_output hopt
    constructor
    · rw [hout, if_pos hswS]
      have hiff : ∀ i, matchAt (m1 ++ m2 ++ m3) DELIMITER i = true ↔
          (i = m1.length - 1 ∨ i = m1.length + m2.length - 1) := by
        intro i
        rw [List.append_assoc, matchAt_append_boundary h1e h23 i]
        rw [matchAt_false_of_matchPositions_nil h1n i]
        rw [matchAt_append_boundary h2e h3s (i - m1.length)]
        rw [matchAt_false_of_matchPositions_nil h2n (i - m1.length)]
        rw [matchAt_false_of_matchPositions_nil h3n
          (i - m1.length - m2.length)]
        simp only [Bool.false_eq_true, false_or, and_false, or_false]
        omega
      have hmp : matchPositions (m1 ++ m2 ++ m3) =
          [m1.length - 1, m1.length + m2.length - 1] :=
        matchPositions_eq_pair (by omega)
          (by rw [List.length_append, List.length_append]; omega) hiff
      rw [hmp]
      simp only [List.map_cons, List.map_nil, List.singleton_append]
      have e1 : ((m1.length - 1 : Nat) : Int) + 1 = (m1.length : Int) := by
        omega
      have e2 : ((m1.length + m2.length - 1 : Nat) : Int) + 1 =
          ((m1.length + m2.length : Nat) : Int) := by omega
      rw [e1, e2]
    · simp

theorem concat_offset_math_witness :
    (scanMbox false [[70, 114, 111, 109, 32, 97, 10, 70, 114, 111, 109, 32,
        98, 10, 70, 114, 111, 109, 32, 99, 10]]).1 =
      [(0 : Int),
        (([70, 114, 111, 109, 32, 97, 10] : List Nat).length : Int),
        ((([70, 114, 111, 109, 32, 97, 10] : List Nat).length +
          ([70, 114, 111, 109, 32, 98, 10] : List Nat).length : Nat) : Int)] ∧
    (scanMbox false [[70, 114, 111, 109, 32, 97, 10, 70, 114, 111, 109, 32,
        98, 10, 70, 114, 111, 109, 32, 99, 10]]).2 ≠ none :=
  concat_offset_math false _ [70, 114, 111, 109, 32, 97, 10]
    [70, 114, 111, 109, 32, 98, 10] [70, 114, 111, 109, 32, 99, 10]
    (by decide) (by decide) (by decide) (by decide) (by decide) (by decide)
    (by decide) (by decide) (by decide) (by decide)

/-- C7: Strictly increasing, duplicate-free output — for every input stream
and every chunking, the full sequence of boundary offsets emitted across all
feed calls is pairwise strictly increasing (hence each boundary is emitted
exactly once, even when a delimiter occurrence straddles two chunks) and
consists of non-negative integers. -/
theorem output_strictly_increasing (strict : Bool)
    (chunks : List (List Nat)) :
    List.Pairwise (· < ·) (scanMbox strict chunks).1 ∧
    ∀ o ∈ (scanMbox strict chunks).1, (0 : Int) ≤ o := by
  rw [scanMbox_eq_scanWhole]
  cases hopt : (scanWhole (initState strict) chunks.flatten).2 with
  | none =>
    rw [scanWhole_init_error_output hopt]
    exact ⟨List.Pairwise.nil, by simp⟩
  | some s1 =>
    obtain ⟨hout, _⟩ := scanWhole_init_output hopt
    rw [hout]
    have hpw : List.Pairwise (· < ·) (matchPositions chunks.flatten) :=
      List.Pairwise.filter _ (List.pairwise_lt_range _)
    constructor
    · cases hb : startsWithFromLine chunks.flatten
      · rw [if_neg (by simp), List.nil_append, List.pairwise_map]
        exact hpw.imp (fun hab => by omega)
      · rw [if_pos rfl, List.singleton_append, List.pairwise_cons]
        constructor
        · intro x hx
          obtain ⟨m, _, rfl⟩ := List.mem_map.mp hx
          omega
        · rw [List.pairwise_map]
          exact hpw.imp (fun hab => by omega)
    · intro o hoo
      rcases List.mem_append.mp hoo with hl | hr
      · cases hb : startsWithFromLine chunks.flatten
        · rw [if_neg (by rw [hb]; simp)] at hl
          exact absurd hl (by simp)
        · rw [if_pos hb] at hl
          have ho0 : o = 0 := by simpa using hl
          omega
      · obtain ⟨m, _, rfl⟩ := List.mem_map.mp hr
        omega

theorem output_strictly_increasing_witness :
    (0 : Int) ∈ (scanMbox false [[70, 114, 111, 109, 32, 97, 10]]).1 ∧
      (0 : Int) ≤ 0 :=
  ⟨by decide,
    (output_strictly_increasing false [[70, 114, 111, 109, 32, 97, 10]]).2 0
      (by decide)⟩

/-- C8: `reset()` frame condition — calling reset on a scanner in any state
sets absoluteOffset to 0, the carry to empty, firstChunkPending to true, and
leaves strictMode unchanged, so the reset scanner equals a freshly
constructed scanner with the same strictMode and feeding any new stream
afterwards produces exactly what the fresh scanner would produce. -/
theorem reset_frame_condition (s : ScannerState) (chunks : List (List Nat)) :
    resetScanner s = initState s.strict ∧
    (resetScanner s).absoluteOffset = 0 ∧ (resetScanner s).tail = [] ∧
    (resetScanner s).isFirstChunk = true ∧
    (resetScanner s).strict = s.strict ∧
    runChunks (resetScanner s) chunks = scanMbox s.strict chunks :=
  ⟨rfl, rfl, rfl, rfl, rfl, rfl⟩

/-- C9: Carry-buffer bound invariant — after any sequence of feed calls on a
fresh scanner, the carry never exceeds the delimiter length (6 bytes); it is
in fact at most 5 bytes (delimiter length − 1), and while the first-chunk
decision is pending it holds exactly the bytes seen so far, which are at
most the first 5 bytes of the stream. -/
theorem carry_buffer_bound (strict : Bool) (chunks : List (List Nat))
    (out : List Int) (s1 : ScannerState)
    (h : scanMbox strict chunks = (out, some s1)) :
    s1.tail.length ≤ DELIMITER.length - 1 ∧
    s1.tail.length ≤ DELIMITER.length ∧
    (s1.isFirstChunk = true →
      s1.tail = chunks.flatten ∧
      s1.tail = chunks.flatten.take DELIMITER_START.length ∧
      s1.tail.length < DELIMITER_START.length) := by
  rw [scanMbox_eq_scanWhole] at h
  have hopt : (scanWhole (initState strict) chunks.flatten).2 = some s1 := by
    rw [h]
  obtain ⟨_, _, _, hpend, _, hbound, _⟩ := scanWhole_init_output hopt
  refine ⟨hbound, by rw [delim_len] at hbound ⊢; omega, fun hfc => ?_⟩
  obtain ⟨htail, hshort⟩ := hpend hfc
  refine ⟨htail, ?_, ?_⟩
  · rw [htail, List.take_of_length_le (by omega)]
  · rw [htail]
    exact hshort

theorem carry_buffer_bound_witness :
    scanMbox false [[70]] =
      ([], some ⟨1, [70], true, false⟩) ∧
    ((⟨1, [70], true, false⟩ : ScannerState).tail.length ≤
        DELIMITER.length - 1 ∧
      (⟨1, [70], true, false⟩ : ScannerState).tail.length ≤ DELIMITER.length ∧
      ((⟨1, [70], true, false⟩ : ScannerState).isFirstChunk = true →
        (⟨1, [70], true, false⟩ : ScannerState).tail =
          ([[70]] : List (List Nat)).flatten ∧
        (⟨1, [70], true, false⟩ : ScannerState).tail =
          ([[70]] : List (List Nat)).flatten.take DELIMITER_START.length ∧
        (⟨1, [70], true, false⟩ : ScannerState).tail.length <
          DELIMITER_START.length)) :=
  ⟨by decide,
    carry_buffer_bound false [[70]] [] ⟨1, [70], true, false⟩ (by decide)⟩

/-- C10 (implicit): strict mode is silently bypassed for very short
streams — for every input whose total content is shorter than 5 bytes and a
prefix of `"From "` (e.g. empty, `"F"`, `"Fro"`), even with strictMode on
the scanner never raises the validation error: the scan ends with an empty
boundary list, the first-chunk decision still pending, and the flush
callback succeeds without checking it. -/
theorem strict_bypass_short_stream (chunks : List (List Nat))
    (hlen : chunks.flatten.length < DELIMITER_START.length)
    (hpre : chunks.flatten = DELIMITER_START.take chunks.flatten.length) :
    (scanMbox true chunks).1 = [] ∧
    ∃ s1, (scanMbox true chunks).2 = some s1 ∧ s1.isFirstChunk = true ∧
      flushScanner s1 = Except.ok () := by
  rw [scanMbox_eq_scanWhole]
  have hev : evidentMismatch chunks.flatten = false := by
    rw [evidentMismatch, if_neg (by omega),
      show (DELIMITER_START.take chunks.flatten.length == chunks.flatten) =
        true from beq_iff_eq.mpr hpre.symm]
    rfl
  cases hopt : (scanWhole (initState true) chunks.flatten).2 with
  | none =>
    exfalso
    obtain ⟨_, hev2⟩ := (scanWhole_init_error_iff true chunks.flatten).mp hopt
    rw [hev] at hev2
    exact absurd hev2 (by simp)
  | some s1 =>
    obtain ⟨hout, _, _, _, _, _, hfirst_iff⟩ := scanWhole_init_output hopt
    have hswf : startsWithFromLine chunks.flatten = false := by
      rw [startsWithFromLine, if_pos hlen]
    have hmp : matchPositions chunks.flatten = [] :=
      matchPositions_eq_nil_of_short
        (by rw [delimStart_len] at hlen; rw [delim_len]; omega)
    constructor
    · rw [hout, if_neg (by rw [hswf]; simp), hmp]
      simp
    · exact ⟨s1, rfl, hfirst_iff.mpr ⟨hlen, hpre.symm⟩, rfl⟩

theorem strict_bypass_short_stream_witness :
    (([[70], [114]] : List (List Nat)).flatten.length <
        DELIMITER_START.length ∧
      ([[70], [114]] : List (List Nat)).flatten =
        DELIMITER_START.take ([[70], [114]] : List (List Nat)).flatten.length) ∧
    ((scanMbox true [[70], [114]]).1 = [] ∧
      ∃ s1, (scanMbox true [[70], [114]]).2 = some s1 ∧
        s1.isFirstChunk = true ∧ flushScanner s1 = Except.ok ()) :=
  ⟨⟨by decide, by decide⟩,
    strict_bypass_short_stream [[70], [114]] (by decide) (by decide)⟩

example : exampleInput.length = 62 := by decide

example : scanMatches (strBytes "a\nFrom x") DELIMITER 0 8 = [1] := by decide

example : (scanMbox false [exampleInput]).1 = [0, 35] := by decide

example :
    scanMbox false [strBytes "From a\n", strBytes "From b\n"] =
      scanMbox false [strBytes "From a\nFrom b\n"] := by decide

example : (scanMbox true [strBytes "Not an mbox\nFrom someone\n"]).2 = none := by
  decide

example : (scanMbox false [strBytes "Not an mbox\nFrom someone\n"]).1 = [12] := by
  decide

end Mbox
